import Mathlib

/-!
# Verification of the TFRT MLIR async runtime core

Shallow embedding of the async-value / token / group primitives from
`lib/cpu/jit/async_runtime.cc` and
`include/tfrt/host_context/async_value_ref.h`, together with the parts of
the cell state machine that the repository's headers reference but whose
implementation file (`async_value.h`) is not present; those parts are
modelled from the specification and are marked as such.
-/

/-! ## Definitions -/

/-- State of an async value cell: `Unconstructed`, `Constructed`,
`ConcreteValue` or `Error` (the error carries a `DecodedDiagnostic`
message string). Modelled from the spec: the `state` field of
`tfrt::AsyncValue` (`async_value.h` is not among the provided sources). -/
inductive AVState where
  | unconstructed
  | constructed
  | concrete
  | error (msg : String)
  deriving DecidableEq, Repr

/-- A cell is available once it has made its terminal transition to
`ConcreteValue` or `Error`. -/
def AVState.IsAvailable : AVState → Bool
  | .concrete => true
  | .error _ => true
  | _ => false

/-- Mirrors `AsyncValue::IsError`: true iff the cell resolved to an error. -/
def AVState.IsError : AVState → Bool
  | .error _ => true
  | _ => false

/-- Modelled from the spec: `AsyncValue::SetStateConcrete` marks an
already-in-place-constructed payload as available; any other starting
state is a contract violation (assertion), embedded as `none`. -/
def AVState.SetStateConcrete : AVState → Option AVState
  | .constructed => some .concrete
  | _ => none

/-- Modelled from the spec: `AsyncValue::SetError(diagnostic)` performs the
terminal transition to `Error`; it fails (assertion) if the cell is
already available. -/
def AVState.SetError (msg : String) : AVState → Option AVState
  | .unconstructed => some (.error msg)
  | .constructed => some (.error msg)
  | _ => none

namespace AsyncGroup

/-- State of an `mlir::runtime::AsyncGroup` (`async_runtime.cc`): the
atomic rank counter `rank_`, the atomic `pending_tokens_` and
`num_errors_` counters (both `int64_t`, embedded as `Int`), and the state
of the completion cell `completed_` (an `AsyncValueRef<Chain>`). -/
structure State where
  rank : Nat
  pendingTokens : Int
  numErrors : Int
  completed : AVState
  deriving DecidableEq, Repr

/-- Constructor `AsyncGroup::AsyncGroup(size)`: `rank_ = 0`,
`pending_tokens_ = size`, `num_errors_ = 0`, `completed_` is a freshly
constructed `Chain` cell (state `Constructed`), and if `size == 0` the
constructor immediately calls `completed_.SetStateConcrete()`. -/
def mk (size : Int) : State :=
  { rank := 0
    pendingTokens := size
    numErrors := 0
    completed := if size = 0 then .concrete else .constructed }

/-- Rank assignment performed at the top of `AsyncGroup::AddToken`:
`rank_.fetch_add(1)` returns the old counter value and increments it. -/
def addTokenRank (g : State) : Nat × State :=
  (g.rank, { g with rank := g.rank + 1 })

/-- Run `n` consecutive `AddToken` rank assignments, collecting the
returned ranks in call order. -/
def runAddTokens : State → Nat → State × List Nat
  | g, 0 => (g, [])
  | g, n + 1 =>
      let (r, g') := addTokenRank g
      let (g'', rs) := runAddTokens g' n
      (g'', r :: rs)

/-- Waiter body registered by `AsyncGroup::AddToken` on the token's chain,
run once when that token resolves (`isError` is the token's `IsError()` at
that point): increment `num_errors_` if the token errored, then
`pending_tokens_.fetch_sub(1)`, and if the old value was `1` mark the
completion cell concrete. -/
def tokenResolved (isError : Bool) (g : State) : State :=
  let g1 := if isError then { g with numErrors := g.numErrors + 1 } else g
  let old := g1.pendingTokens
  let g2 := { g1 with pendingTokens := old - 1 }
  if old = 1 then { g2 with completed := .concrete } else g2

/-- Process a sequence of token resolutions in the order in which their
waiters fire. -/
def resolveAll (g : State) (rs : List Bool) : State :=
  rs.foldl (fun g b => tokenResolved b g) g

/-- Mirrors `AsyncGroup::IsError`: `num_errors_.load() != 0`. -/
def IsError (g : State) : Bool := g.numErrors != 0

end AsyncGroup

namespace AsyncToken

/-- State of an `mlir::runtime::AsyncToken`: the intrusive reference count
(from `AsyncRuntimeObject`) and the state of its `chain_` cell, created by
`MakeConstructedAsyncValueRef<Chain>`. The count semantics of
`ReferenceCounted` (decrement by one, destroy at zero) are modelled from
the spec, `ref_count.h` not being among the provided sources. -/
structure State where
  refCount : Nat
  chain : AVState
  deriving DecidableEq, Repr

end AsyncToken

namespace Storage

/-- Inline byte budget of `AsyncValue::Storage`: enough to fit a memref
descriptor of rank 5. -/
def kSize : Nat := 128

/-- Mirrors `alignof(std::max_align_t)`, which is 16 on the LP64 targets
this runtime builds for. -/
def kAlign : Nat := 16

/-- Mirrors `AsyncValue::Storage::CanStoreInline(size, alignment)`:
`size <= kSize && alignment <= kAlign`. -/
def CanStoreInline (size alignment : Nat) : Bool :=
  decide (size ≤ kSize) && decide (alignment ≤ kAlign)

end Storage

/-- Payload placement chosen by the `AsyncValue::Storage` union: either the
inline `aligned_storage` buffer or a separately heap-allocated
`HostBuffer` of the requested size and alignment, referenced by pointer. -/
inductive StorageKind where
  | inlineBuffer
  | heapBuffer (size alignment : Nat)
  deriving DecidableEq, Repr

/-- Storage selection in the `mlir::runtime::AsyncValue` constructor:
inline when `Storage::CanStoreInline(size, alignment)` holds, otherwise a
`HostBuffer::CreateUninitialized(size, alignment)` allocation. -/
def AsyncValue.mkStorage (size alignment : Nat) : StorageKind :=
  if Storage.CanStoreInline size alignment then .inlineBuffer
  else .heapBuffer size alignment

/-- State of an `mlir::runtime::AsyncValue`: reference count, chosen
storage placement, and the state of the `storage_` cell. -/
structure AsyncValueObj where
  refCount : Nat
  storage : StorageKind
  cell : AVState
  deriving DecidableEq, Repr

namespace AsyncRuntime

/-- Mirrors `AsyncRuntime::DropRef(obj, 1)`: one decrement of the
intrusive reference count (destruction at zero is outside this model). -/
def dropRef (rc : Nat) : Nat := rc - 1

/-- Mirrors `AsyncRuntime::CreateToken`: a new token with
`ref_count = 2` whose chain cell is freshly constructed. -/
def CreateToken : AsyncToken.State :=
  { refCount := 2, chain := .constructed }

/-- Mirrors `AsyncRuntime::SetAvailable(Token*)`: perform
`SetStateConcrete` on the token's chain, then drop the extra reference
held since creation. -/
def SetAvailableToken (t : AsyncToken.State) : Option AsyncToken.State :=
  (t.chain.SetStateConcrete).map
    (fun c => { refCount := dropRef t.refCount, chain := c })

/-- Mirrors `AsyncRuntime::SetError(Token*)`: set the fixed diagnostic
`"<async runtime error>"` on the token's chain, then drop the extra
reference held since creation. The API takes no message argument. -/
def SetErrorToken (t : AsyncToken.State) : Option AsyncToken.State :=
  (t.chain.SetError "<async runtime error>").map
    (fun c => { refCount := dropRef t.refCount, chain := c })

/-- Mirrors `AsyncRuntime::CreateValue(size, alignment)`: a new value with
`ref_count = 2`, its storage selected by `Storage::CanStoreInline`, and a
freshly constructed storage cell. -/
def CreateValue (size alignment : Nat) : AsyncValueObj :=
  { refCount := 2
    storage := AsyncValue.mkStorage size alignment
    cell := .constructed }

/-- Mirrors `AsyncRuntime::SetAvailable(Value*)`: perform
`SetStateConcrete` on the value's storage cell, then drop the extra
reference held since creation. -/
def SetAvailableValue (v : AsyncValueObj) : Option AsyncValueObj :=
  (v.cell.SetStateConcrete).map
    (fun c => { v with refCount := dropRef v.refCount, cell := c })

/-- Mirrors `AsyncRuntime::SetError(Value*)`: set the fixed diagnostic
`"<async runtime error>"` on the value's storage cell, then drop the extra
reference held since creation. The API takes no message argument. -/
def SetErrorValue (v : AsyncValueObj) : Option AsyncValueObj :=
  (v.cell.SetError "<async runtime error>").map
    (fun c => { v with refCount := dropRef v.refCount, cell := c })

end AsyncRuntime

/-- Event on one async value cell: a waiter registration through
`AndThen` (tagged by a waiter id) or the single terminal publish
transition performed by `emplace`/`SetError`/`SetStateConcrete`. -/
inductive CellEvent where
  | register (id : Nat)
  | publish
  deriving DecidableEq, Repr

/-- Observable run state of one cell's waiter machinery: whether the cell
is available, the queued (not yet fired) waiters, and the waiters that
have fired, in firing order. Modelled from the spec: the waiter list of
`tfrt::AsyncValue` (`async_value.h` is not among the provided sources). -/
structure CellRun where
  avail : Bool
  queued : List Nat
  fired : List Nat
  deriving DecidableEq, Repr

/-- Initial cell: unavailable, no waiters registered or fired. -/
def CellRun.init : CellRun := { avail := false, queued := [], fired := [] }

/-- Modelled from the spec: one step of the cell's waiter machinery.
`AndThen` runs the waiter synchronously and inline when the cell is
already available, otherwise appends it to the waiter list; the terminal
publish transition makes the cell available, fires every queued waiter
and clears the list. -/
def cellStep (s : CellRun) : CellEvent → CellRun
  | .register i =>
      if s.avail then { s with fired := s.fired ++ [i] }
      else { s with queued := s.queued ++ [i] }
  | .publish => { avail := true, queued := [], fired := s.fired ++ s.queued }

/-- Run a sequence of cell events from the initial cell. -/
def cellRun (evs : List CellEvent) : CellRun :=
  evs.foldl cellStep CellRun.init

/-- Waiter ids registered by a sequence of events, in registration
order. -/
def regIds : List CellEvent → List Nat
  | [] => []
  | .register i :: rest => i :: regIds rest
  | .publish :: rest => regIds rest

/-- Resolved state of a typed cell as seen through `AsyncValuePtr<T>`:
unavailable, a concrete payload, or an error diagnostic. Modelled from
the spec for the cell itself; the accessors below are from
`async_value_ref.h`. -/
inductive TypedCell (T : Type) where
  | unavailable
  | concrete (v : T)
  | error (msg : String)
  deriving DecidableEq, Repr

/-- Availability of a typed cell. -/
def TypedCell.IsAvailable {T : Type} : TypedCell T → Bool
  | .unavailable => false
  | _ => true

/-- Mirrors `AsyncValuePtr<T>::AsExpected` (`async_value_ref.h`): asserts
`IsAvailable()`, then returns the error as a failed `Expected` if
`IsError()`, otherwise a pointer to the value. The assertion-failure path
on an unavailable cell is embedded as `none`. -/
def AsyncValuePtr.AsExpected {T : Type} : TypedCell T → Option (Except String T)
  | .concrete v => some (.ok v)
  | .error m => some (.error m)
  | .unavailable => none

/-- Closure that the `Expected<T*>` overload of `AsyncValuePtr::AndThen`
registers through the no-argument overload (`async_value_ref.h`): at fire
time it reads `av_ptr.AsExpected()` from the captured pointer and passes
the result to the wrapped waiter. -/
def AsyncValuePtr.expectedOverloadClosure {T β : Type}
    (waiter : Except String T → β) : TypedCell T → Option β :=
  fun avAtFire => (AsyncValuePtr.AsExpected avAtFire).map waiter

/-- Dispatch mode of `AsyncRuntime::Await`, chosen once per runtime
instance by whether `worker_threads_` is set. -/
inductive AwaitMode where
  | externalWorker
  | hostScheduler
  deriving DecidableEq, Repr

/-- Initial count of the `tfrt::latch latch(1)` used by the
external-worker branch of `AsyncRuntime::Await`. Modelled from the spec:
`latch.h` is not among the provided sources. -/
def latchInit : Nat := 1

/-- Modelled from the spec: `latch.count_down()` decrements the counter. -/
def latchCountDown (l : Nat) : Nat := l - 1

/-- Latch counter after the awaited cell reaches the given availability:
the registered continuation `[&] \x7b latch.count_down(); \x7d` has run
exactly when the cell is available. -/
def externalLatchAfter (avail : Bool) : Nat :=
  if avail then latchCountDown latchInit else latchInit

/-- Modelled from the spec: `latch.wait()` returns exactly when the
counter has reached zero. -/
def latchWaitReturns (l : Nat) : Bool := l == 0

/-- Modelled from the spec: `HostContext::Await` (the host-scheduler
blocking wait, not among the provided sources) returns exactly when the
awaited cell is available. -/
def hostContextAwaitReturns (avail : Bool) : Bool := avail

/-- Mirrors the dispatch in `AsyncRuntime::Await(AsyncValue*)`: with
external worker threads, build a latch of 1, register a count-down
continuation and block on the latch; otherwise delegate to
`host_context_->Await`. The predicate tells whether the call has returned
once the awaited cell has the given availability; the signature carries
no timeout or cancellation input. -/
def AsyncRuntime.AwaitReturns : AwaitMode → Bool → Bool
  | .externalWorker, a => latchWaitReturns (externalLatchAfter a)
  | .hostScheduler, a => hostContextAwaitReturns a

/-! ## Helper lemmas -/

namespace AsyncGroup

theorem tokenResolved_rank (b : Bool) (g : State) :
    (tokenResolved b g).rank = g.rank := by
  unfold tokenResolved
  cases b <;> by_cases h : g.pendingTokens = 1 <;> simp [h]

theorem tokenResolved_numErrors (b : Bool) (g : State) :
    (tokenResolved b g).numErrors = g.numErrors + (if b then 1 else 0) := by
  unfold tokenResolved
  cases b <;> by_cases h : g.pendingTokens = 1 <;> simp [h]

theorem tokenResolved_pending (b : Bool) (g : State) :
    (tokenResolved b g).pendingTokens = g.pendingTokens - 1 := by
  unfold tokenResolved
  cases b <;> by_cases h : g.pendingTokens = 1 <;> simp [h]

theorem tokenResolved_completed (b : Bool) (g : State) :
    (tokenResolved b g).completed =
      (if g.pendingTokens = 1 then .concrete else g.completed) := by
  unfold tokenResolved
  cases b <;> by_cases h : g.pendingTokens = 1 <;> simp [h]

theorem resolveAll_numErrors (rs : List Bool) (g : State) :
    (resolveAll g rs).numErrors = g.numErrors + (rs.count true : Int) := by
  induction rs generalizing g with
  | nil => simp [resolveAll]
  | cons b rest ih =>
      simp only [resolveAll, List.foldl_cons] at *
      rw [ih, tokenResolved_numErrors]
      cases b
      · simp [List.count_cons]
      · simp [List.count_cons]
        ring

theorem resolveAll_pending (rs : List Bool) (g : State) :
    (resolveAll g rs).pendingTokens = g.pendingTokens - rs.length := by
  induction rs generalizing g with
  | nil => simp [resolveAll]
  | cons b rest ih =>
      simp only [resolveAll, List.foldl_cons] at *
      rw [ih, tokenResolved_pending]
      push_cast [List.length_cons]
      ring

/-- Core invariant for a group whose completion cell is still merely
constructed: as long as no more resolutions arrive than there are pending
tokens, the completion cell flips to concrete exactly when the count of
resolutions equals the pending count. -/
theorem resolveAll_completed (rs : List Bool) (g : State)
    (hc : g.completed = .constructed)
    (hp : 0 < g.pendingTokens)
    (hlen : (rs.length : Int) ≤ g.pendingTokens) :
    (resolveAll g rs).completed =
      (if (rs.length : Int) = g.pendingTokens then .concrete
       else .constructed) := by
  induction rs generalizing g with
  | nil =>
      have h : ¬ ((0 : Int) = g.pendingTokens) := by omega
      simp [resolveAll, hc, h]
  | cons b rest ih =>
      simp only [resolveAll, List.foldl_cons, List.length_cons] at *
      have steppend :
          (tokenResolved b g).pendingTokens = g.pendingTokens - 1 :=
        tokenResolved_pending b g
      by_cases h1 : g.pendingTokens = 1
      · have hrest : rest = [] := by
          have hr0 : rest.length = 0 := by omega
          exact List.length_eq_zero.mp hr0
        subst hrest
        simp only [resolveAll, List.foldl_nil] at *
        rw [tokenResolved_completed]
        simp [h1]
      · have step : (tokenResolved b g).completed = .constructed := by
          rw [tokenResolved_completed, hc]
          simp [h1]
        have hp' : 0 < (tokenResolved b g).pendingTokens := by
          rw [steppend]; omega
        have hlen' :
            ((rest.length : Int)) ≤ (tokenResolved b g).pendingTokens := by
          rw [steppend]; omega
        rw [ih (tokenResolved b g) step hp' hlen', steppend]
        by_cases he : (rest.length : Int) = g.pendingTokens - 1
        · have he2 : ((rest.length : Int)) + 1 = g.pendingTokens := by omega
          simp [he, he2]
        · have he2 : ¬ (((rest.length : Int)) + 1 = g.pendingTokens) := by
            omega
          simp [he, he2]

/-- The group callback only ever sets the completion cell to concrete;
it never transitions it to an error state. -/
theorem resolveAll_completed_not_error (rs : List Bool) (g : State)
    (h : g.completed.IsError = false) :
    (resolveAll g rs).completed.IsError = false := by
  induction rs generalizing g with
  | nil => simpa [resolveAll] using h
  | cons b rest ih =>
      simp only [resolveAll, List.foldl_cons] at *
      refine ih (tokenResolved b g) ?_
      rw [tokenResolved_completed]
      by_cases h1 : g.pendingTokens = 1
      · simp [h1, AVState.IsError]
      · simpa [h1] using h

/-- Ranks returned by `n` `AddToken` calls starting from rank counter
`g.rank` are the consecutive values from `g.rank`. -/
theorem runAddTokens_ranks (n : Nat) (g : State) :
    (runAddTokens g n).2 = List.range' g.rank n := by
  induction n generalizing g with
  | zero => simp [runAddTokens]
  | succ n ih =>
      simp only [runAddTokens, addTokenRank]
      rw [ih]
      simp [List.range'_succ]

end AsyncGroup

/-- Registration-only events on an unavailable cell queue every waiter in
order and fire none. -/
theorem foldl_cellStep_unavail (evs : List CellEvent) (s : CellRun)
    (h : CellEvent.publish ∉ evs) (hs : s.avail = false) :
    evs.foldl cellStep s = { s with queued := s.queued ++ regIds evs } := by
  induction evs generalizing s with
  | nil => simp [regIds]
  | cons e rest ih =>
      cases e with
      | register i =>
          have hrest : CellEvent.publish ∉ rest := by
            intro hm
            exact h (List.mem_cons_of_mem _ hm)
          simp only [List.foldl_cons, cellStep, hs, Bool.false_eq_true,
            if_false]
          rw [ih _ hrest rfl]
          simp [regIds]
      | publish => exact absurd (List.mem_cons_self _ _) h

/-- Registration-only events on an already-available cell run every waiter
inline, in order. -/
theorem foldl_cellStep_avail (evs : List CellEvent) (s : CellRun)
    (h : CellEvent.publish ∉ evs) (hs : s.avail = true) :
    evs.foldl cellStep s = { s with fired := s.fired ++ regIds evs } := by
  induction evs generalizing s with
  | nil => simp [regIds]
  | cons e rest ih =>
      cases e with
      | register i =>
          have hrest : CellEvent.publish ∉ rest := by
            intro hm
            exact h (List.mem_cons_of_mem _ hm)
          simp only [List.foldl_cons, cellStep, hs, if_true]
          rw [ih _ hrest rfl]
          simp [regIds]
      | publish => exact absurd (List.mem_cons_self _ _) h

/-! ## Claim theorems -/

/-- C1: for a group created with declared size `N > 0`, after any `k ≤ N`
of its `N` registered tokens have resolved — in any order and with any
mix of values and errors — the pending counter equals `N - k` (so each
registered token decremented it exactly once) and is never negative, and
the group's completion cell is available exactly when `k = N`, i.e. at
the `N`-th resolution. -/
theorem claim1_group_completes_on_nth_resolution
    (N : Nat) (rs : List Bool) (hN : 0 < N) (hlen : rs.length ≤ N) :
    (AsyncGroup.resolveAll (AsyncGroup.mk N) rs).pendingTokens
        = (N : Int) - rs.length ∧
    0 ≤ (AsyncGroup.resolveAll (AsyncGroup.mk N) rs).pendingTokens ∧
    ((AsyncGroup.resolveAll (AsyncGroup.mk N) rs).completed.IsAvailable = true
        ↔ rs.length = N) := by
  have hmkP : (AsyncGroup.mk N).pendingTokens = (N : Int) := rfl
  have hmkC : (AsyncGroup.mk N).completed = .constructed := by
    have hne : ¬ ((N : Int) = 0) := by
      omega
    simp [AsyncGroup.mk, hne]
  refine ⟨?_, ?_, ?_⟩
  · rw [AsyncGroup.resolveAll_pending, hmkP]
  · rw [AsyncGroup.resolveAll_pending, hmkP]
    omega
  · rw [AsyncGroup.resolveAll_completed rs _ hmkC
      (by rw [hmkP]; exact_mod_cast hN)
      (by rw [hmkP]; exact_mod_cast hlen), hmkP]
    by_cases h : (rs.length : Int) = (N : Int)
    · have h2 : rs.length = N := by exact_mod_cast h
      simp [h, h2, AVState.IsAvailable]
    · have h2 : ¬ rs.length = N := by
        intro e
        exact h (by exact_mod_cast e)
      simp [h, h2, AVState.IsAvailable]

theorem claim1_group_completes_on_nth_resolution_witness :
    (AsyncGroup.resolveAll (AsyncGroup.mk (3 : Nat)) [false, true, false]).pendingTokens
        = ((3 : Nat) : Int) - ([false, true, false] : List Bool).length ∧
    0 ≤ (AsyncGroup.resolveAll (AsyncGroup.mk (3 : Nat)) [false, true, false]).pendingTokens ∧
    ((AsyncGroup.resolveAll (AsyncGroup.mk (3 : Nat)) [false, true, false]).completed.IsAvailable = true
        ↔ ([false, true, false] : List Bool).length = 3) :=
  claim1_group_completes_on_nth_resolution 3 [false, true, false]
    (by decide) (by decide)

/-- C2: `CreateToken` returns a token with reference count 2, and
`SetAvailable`/`SetError` on it perform the terminal transition on the
chain cell and then drop the extra creation-time reference, leaving
exactly one reference and the terminal state. -/
theorem claim2_createToken_refcount_two_then_drop :
    AsyncRuntime.CreateToken.refCount = 2 ∧
    AsyncRuntime.SetAvailableToken AsyncRuntime.CreateToken
        = some { refCount := 1, chain := AVState.concrete } ∧
    AsyncRuntime.SetErrorToken AsyncRuntime.CreateToken
        = some { refCount := 1, chain := AVState.error "<async runtime error>" } :=
  ⟨rfl, rfl, rfl⟩

/-- C3: a group constructed with declared size 0 has its completion cell
already available (concrete) immediately after construction, before any
token is added or resolved. -/
theorem claim3_group_size_zero_immediately_available :
    (AsyncGroup.mk 0).completed = AVState.concrete ∧
    (AsyncGroup.mk 0).completed.IsAvailable = true :=
  ⟨rfl, rfl⟩

/-- C4: `IsError(group)` is true iff at least one of the token
resolutions processed so far was an error — it holds as soon as such a
token resolves, even while other tokens are pending — and the group's own
completion cell is never transitioned to the Error state. -/
theorem claim4_group_isError_iff_some_token_error
    (N : Nat) (rs : List Bool) :
    (AsyncGroup.IsError (AsyncGroup.resolveAll (AsyncGroup.mk N) rs) = true
        ↔ true ∈ rs) ∧
    (AsyncGroup.resolveAll (AsyncGroup.mk N) rs).completed.IsError = false := by
  constructor
  · simp only [AsyncGroup.IsError, AsyncGroup.resolveAll_numErrors]
    have hmkE : (AsyncGroup.mk N).numErrors = 0 := rfl
    rw [hmkE]
    simp [List.count_eq_zero, not_not]
  · apply AsyncGroup.resolveAll_completed_not_error
    by_cases h : (N : Int) = 0 <;> simp [AsyncGroup.mk, h, AVState.IsError]

theorem claim4_group_isError_iff_some_token_error_witness :
    (AsyncGroup.IsError (AsyncGroup.resolveAll (AsyncGroup.mk (2 : Nat)) [true]) = true
        ↔ true ∈ ([true] : List Bool)) ∧
    (AsyncGroup.resolveAll (AsyncGroup.mk (2 : Nat)) [true]).completed.IsError = false :=
  claim4_group_isError_iff_some_token_error 2 [true]

/-- C5: waiters registered through `AndThen` before the terminal
transition are queued and all fire at (and never before) the transition;
waiters registered after it run inline at registration; across the whole
event sequence every registered waiter fires exactly once (the fired list
equals the registration list). -/
theorem claim5_andThen_waiters_fire_exactly_once
    (pre post : List CellEvent)
    (hpre : CellEvent.publish ∉ pre) (hpost : CellEvent.publish ∉ post) :
    (cellRun (pre ++ CellEvent.publish :: post)).fired
        = regIds pre ++ regIds post ∧
    (cellRun (pre ++ CellEvent.publish :: post)).queued = [] ∧
    (cellRun (pre ++ CellEvent.publish :: post)).avail = true ∧
    (cellRun pre).fired = [] := by
  have h1 : List.foldl cellStep CellRun.init pre
      = { avail := false, queued := regIds pre, fired := [] } := by
    rw [foldl_cellStep_unavail pre CellRun.init hpre rfl]
    simp [CellRun.init]
  have h3 : List.foldl cellStep CellRun.init (pre ++ CellEvent.publish :: post)
      = { avail := true, queued := [], fired := regIds pre ++ regIds post } := by
    rw [List.foldl_append, h1]
    simp only [List.foldl_cons, cellStep]
    rw [foldl_cellStep_avail post _ hpost rfl]
    simp
  refine ⟨?_, ?_, ?_, ?_⟩
  · simp only [cellRun, h3]
  · simp only [cellRun, h3]
  · simp only [cellRun, h3]
  · simp only [cellRun, h1]

theorem claim5_andThen_waiters_fire_exactly_once_witness :
    (cellRun ([CellEvent.register 7] ++ CellEvent.publish :: [CellEvent.register 9])).fired
        = regIds [CellEvent.register 7] ++ regIds [CellEvent.register 9] ∧
    (cellRun ([CellEvent.register 7] ++ CellEvent.publish :: [CellEvent.register 9])).queued = [] ∧
    (cellRun ([CellEvent.register 7] ++ CellEvent.publish :: [CellEvent.register 9])).avail = true ∧
    (cellRun [CellEvent.register 7]).fired = [] :=
  claim5_andThen_waiters_fire_exactly_once
    [CellEvent.register 7] [CellEvent.register 9] (by decide) (by decide)

/-- C6: the `Expected<T*>` overload of `AndThen` wraps the no-argument
form in a closure that reads `AsExpected()` at fire time: an error cell
carrying "boom" hands the continuation a failed `Expected` with message
"boom", and a concrete cell hands it a successful `Expected` holding the
resolved value. -/
theorem claim6_andThen_expected_reads_terminal_state
    {T β : Type} (waiter : Except String T → β) (v : T) :
    AsyncValuePtr.expectedOverloadClosure waiter (TypedCell.error "boom")
        = some (waiter (Except.error "boom")) ∧
    AsyncValuePtr.expectedOverloadClosure waiter (TypedCell.concrete v)
        = some (waiter (Except.ok v)) :=
  ⟨rfl, rfl⟩

/-- C7: `Await` returns exactly when the awaited cell is available: the
external-worker branch blocks on a latch initialized to 1 that the
registered continuation counts down, and the host-scheduler branch
delegates to the host context's blocking wait; neither takes a timeout or
cancellation input. -/
theorem claim7_await_returns_iff_available (m : AwaitMode) (a : Bool) :
    (AsyncRuntime.AwaitReturns m a = true ↔ a = true) ∧
    AsyncRuntime.AwaitReturns AwaitMode.externalWorker a
        = latchWaitReturns (externalLatchAfter a) ∧
    AsyncRuntime.AwaitReturns AwaitMode.hostScheduler a
        = hostContextAwaitReturns a ∧
    latchInit = 1 ∧
    externalLatchAfter true = latchCountDown latchInit := by
  cases m <;> cases a <;> decide

/-- C8: for every payload size and power-of-two alignment, the value
cell's storage is inline iff the size is at most 128 bytes and the
alignment at most `alignof(std::max_align_t)`; otherwise the separately
heap-allocated `HostBuffer` path is used, with the cell holding only a
pointer to it. -/
theorem claim8_storage_inline_iff_small_and_aligned
    (size alignment : Nat) (_hpow : ∃ k, alignment = 2 ^ k) :
    ((AsyncRuntime.CreateValue size alignment).storage = StorageKind.inlineBuffer
        ↔ (size ≤ 128 ∧ alignment ≤ 16)) ∧
    (¬ (size ≤ 128 ∧ alignment ≤ 16) →
      (AsyncRuntime.CreateValue size alignment).storage
          = StorageKind.heapBuffer size alignment) := by
  unfold AsyncRuntime.CreateValue AsyncValue.mkStorage Storage.CanStoreInline
  unfold Storage.kSize Storage.kAlign
  by_cases h1 : size ≤ 128 <;> by_cases h2 : alignment ≤ 16 <;>
    simp [h1, h2]

theorem claim8_storage_inline_iff_small_and_aligned_witness :
    (((AsyncRuntime.CreateValue 256 8).storage = StorageKind.inlineBuffer)
        ↔ (256 ≤ 128 ∧ 8 ≤ 16)) ∧
    (¬ ((256 : Nat) ≤ 128 ∧ (8 : Nat) ≤ 16) →
      (AsyncRuntime.CreateValue 256 8).storage = StorageKind.heapBuffer 256 8) :=
  claim8_storage_inline_iff_small_and_aligned 256 8 ⟨3, rfl⟩

/-- C9: a sequence of `AddToken` calls on a group returns the zero-based
ranks `0, 1, 2, ...` in call order, with no rank returned twice. -/
theorem claim9_addToken_ranks_consecutive_unique (size : Int) (n : Nat) :
    (AsyncGroup.runAddTokens (AsyncGroup.mk size) n).2 = List.range n ∧
    ((AsyncGroup.runAddTokens (AsyncGroup.mk size) n).2).Nodup := by
  have h : (AsyncGroup.runAddTokens (AsyncGroup.mk size) n).2
      = List.range' 0 n := by
    rw [AsyncGroup.runAddTokens_ranks]
    rfl
  constructor
  · rw [h, List.range_eq_range']
  · rw [h]
    exact List.nodup_range' 0 n

/-- C10: `SetError` on a token or on a runtime value always records the
fixed diagnostic message `"<async runtime error>"`; the entry points take
no message argument, so every error produced through them carries this
same message. -/
theorem claim10_setError_fixed_message
    (t : AsyncToken.State) (v : AsyncValueObj)
    (ht : t.chain.IsAvailable = false) (hv : v.cell.IsAvailable = false) :
    (AsyncRuntime.SetErrorToken t).map (fun s => s.chain)
        = some (AVState.error "<async runtime error>") ∧
    (AsyncRuntime.SetErrorValue v).map (fun s => s.cell)
        = some (AVState.error "<async runtime error>") := by
  constructor
  · cases hc : t.chain <;> rw [hc] at ht <;>
      simp [AVState.IsAvailable] at ht <;>
      simp [AsyncRuntime.SetErrorToken, AVState.SetError, hc]
  · cases hc : v.cell <;> rw [hc] at hv <;>
      simp [AVState.IsAvailable] at hv <;>
      simp [AsyncRuntime.SetErrorValue, AVState.SetError, hc]

theorem claim10_setError_fixed_message_witness :
    (AsyncRuntime.SetErrorToken AsyncRuntime.CreateToken).map (fun s => s.chain)
        = some (AVState.error "<async runtime error>") ∧
    (AsyncRuntime.SetErrorValue (AsyncRuntime.CreateValue 4 4)).map (fun s => s.cell)
        = some (AVState.error "<async runtime error>") :=
  claim10_setError_fixed_message AsyncRuntime.CreateToken
    (AsyncRuntime.CreateValue 4 4) rfl rfl
